import Mathlib

/-!
Verification of the Chat4U conversation and presence engine.

The definitions below are a shallow embedding of the backend source:
* `backend/src/services/message.service.js` — `sendMessage`,
  `getMessagesBetweenUsers`, `getChatPartners`;
* `backend/src/controllers/message.controller.js` — the send controller's
  realtime push block;
* `backend/src/lib/socket.js` — the `userSocketMap` presence registry and
  the connection / disconnect handlers;
* the `Message` mongoose schema (`text` is stored trimmed) and
  `backend/src/config/index.js` (`pagination.defaultLimit = 50`,
  `pagination.maxLimit = 100`).

User ids, socket ids and message ids are modelled as `Nat`; timestamps
(`createdAt`) as `Nat`; the message store as a `List Msg`; the users
collection as a `List UserRec`.
-/

namespace Chat4U

/-- A persisted message document.  Mirrors the mongoose `messageSchema`:
`senderId`, `receiverId`, `text` (stored trimmed by the schema's
`trim: true`), `image`, and the `createdAt` timestamp added by
`timestamps: true`.  `id` is the `_id` assigned at creation. -/
structure Msg where
  id : Nat
  senderId : Nat
  receiverId : Nat
  text : String
  image : String
  createdAt : Nat
deriving DecidableEq, Repr

/-- A user document (mongoose `userSchema`): `_id`, `email`, `fullName`,
`profilePic` (`none` models a missing/null field, for the `$ifNull`
fallback in `getChatPartners`). -/
structure UserRec where
  id : Nat
  email : String
  fullName : String
  profilePic : Option String
deriving DecidableEq, Repr

/-- Descending order on messages by `createdAt`, the order used by
`.sort({ createdAt: -1 })` in `getMessagesBetweenUsers` and by the
`$sort: { createdAt: -1 }` stage of `getChatPartners`. -/
def msgDesc (a b : Msg) : Prop := b.createdAt ≤ a.createdAt

instance : DecidableRel msgDesc := fun a b => Nat.decLe _ _

instance : IsTotal Msg msgDesc :=
  ⟨fun a b => Nat.le_total b.createdAt a.createdAt⟩

instance : IsTrans Msg msgDesc :=
  ⟨fun _ _ _ h1 h2 => Nat.le_trans h2 h1⟩

/-- `.sort({ createdAt: -1 })` — most recent first. -/
def sortByCreatedDesc (l : List Msg) : List Msg := l.insertionSort msgDesc

/-! ## Presence registry (`backend/src/lib/socket.js`)

`const userSocketMap = {}` is a plain JS object mapping a user id to the
socket id of that user's live connection.  We model it as an association
list with the JS object-update semantics: assignment replaces the value
of an existing key in place, otherwise appends a fresh binding; `delete`
removes the binding of the key. -/

/-- Registry state: bindings `userId ↦ socketId`. -/
abbrev Registry := List (Nat × Nat)

/-- `userSocketMap[u] = h` — JS object assignment: overwrite the binding
of `u` if present, else append. -/
def setKey : Registry → Nat → Nat → Registry
  | [], u, h => [(u, h)]
  | (k, v) :: rest, u, h =>
    if k = u then (k, h) :: rest else (k, v) :: setKey rest u h

/-- `delete userSocketMap[u]` — JS object delete: drop the binding of `u`. -/
def delKey : Registry → Nat → Registry
  | [], _ => []
  | (k, v) :: rest, u =>
    if k = u then rest else (k, v) :: delKey rest u

/-- `getReceiverSocketId(userId)` / `userSocketMap[userId]`: the socket id
bound to `userId`, if any. -/
def lookupUser (reg : Registry) (u : Nat) : Option Nat :=
  (reg.find? (fun p => p.1 == u)).map Prod.snd

/-- The `io.on("connection", ...)` handler body (socket.js lines 39–40):
`userSocketMap[userId] = socket.id`. -/
def handleConnection (reg : Registry) (userId socketId : Nat) : Registry :=
  setKey reg userId socketId

/-- The `socket.on("disconnect", ...)` handler body (socket.js line 53):
`delete userSocketMap[userId]`.  The handler closes over the
disconnecting socket (whose id is `socketId`) but never compares it with
the stored value — the deletion is keyed on `userId` alone. -/
def handleDisconnect (reg : Registry) (userId socketId : Nat) : Registry :=
  delKey reg userId

/-- A connection-lifecycle event as delivered to the two socket.js
handlers: each event carries the user id and the socket id of the
connection it concerns. -/
inductive SocketEvent where
  | connect (userId socketId : Nat)
  | disconnect (userId socketId : Nat)
deriving DecidableEq, Repr

/-- Apply one lifecycle event to the registry. -/
def applyEvent (reg : Registry) : SocketEvent → Registry
  | .connect u sid => handleConnection reg u sid
  | .disconnect u sid => handleDisconnect reg u sid

/-- The registry reached from the empty map (`{}`) by a sequence of
connect/disconnect events. -/
def runEvents (evs : List SocketEvent) : Registry :=
  evs.foldl applyEvent []

/-- Keys of a registry. -/
def regKeys (reg : Registry) : List Nat := reg.map Prod.fst

/-! ## Message service (`backend/src/services/message.service.js`) -/

/-- Errors thrown by the service layer (`backend/src/utils/ApiError.js`):
`BadRequestError` (HTTP 400) and `NotFoundError` (HTTP 404). -/
inductive Err where
  | badRequest
  | notFound
deriving DecidableEq, Repr

instance {ε α : Type} [DecidableEq ε] [DecidableEq α] :
    DecidableEq (Except ε α)
  | .ok a, .ok b => decidable_of_iff (a = b) (by simp)
  | .ok _, .error _ => isFalse (by simp)
  | .error _, .ok _ => isFalse (by simp)
  | .error e, .error f => decidable_of_iff (e = f) (by simp)

/-- JS `String.prototype.trim` (applied by the mongoose schema's
`trim: true` on `text` when a message is stored): drop leading and
trailing whitespace. -/
def jsTrim (s : String) : String :=
  ⟨((s.data.dropWhile Char.isWhitespace).reverse.dropWhile
      Char.isWhitespace).reverse⟩

/-- The `content` argument of `sendMessage` as the controller passes it:
`{ text: text || "", image: imageUrl }` — both are plain strings, an
absent field arrives as `""`.  A JS string is falsy exactly when it is
empty, so the service's `!text && !image` test is `text = "" ∧ image = ""`. -/
structure Content where
  text : String
  image : String
deriving DecidableEq, Repr

/-- `MessageService.sendMessage(senderId, receiverId, content)`
(message.service.js lines 25–68).  In source order: reject when neither
`text` nor `image` is truthy; reject when the receiver id resolves to no
user; reject when `senderId` equals `receiverId`; otherwise persist the
message.  `Message.create` stores `text` trimmed (the schema declares
`trim: true` on `text`; `image` has no trim).  `newId` and `now` stand
for the `_id` and `createdAt` the store assigns at creation.  On success
the result carries the created message and the store with it appended;
an `Err` result models a thrown error, before which nothing is written. -/
def sendMessage (store : List Msg) (users : List UserRec)
    (senderId receiverId : Nat) (content : Content) (newId now : Nat) :
    Except Err (Msg × List Msg) :=
  if content.text = "" ∧ content.image = "" then
    .error .badRequest
  else
    match users.find? (fun u => u.id == receiverId) with
    | none => .error .notFound
    | some _ =>
      if senderId = receiverId then
        .error .badRequest
      else
        let message : Msg :=
          { id := newId, senderId := senderId, receiverId := receiverId,
            text := jsTrim content.text, image := content.image,
            createdAt := now }
        .ok (message, store ++ [message])

/-- The message store after a `sendMessage` call: unchanged when the call
threw, extended by the created message when it succeeded. -/
def storeAfterSend (store : List Msg) (users : List UserRec)
    (senderId receiverId : Nat) (content : Content) (newId now : Nat) :
    List Msg :=
  match sendMessage store users senderId receiverId content newId now with
  | .ok (_, s) => s
  | .error _ => store

/-- `config.pagination` (config/index.js lines 101–105). -/
def defaultLimit : Int := 50

/-- `config.pagination.maxLimit`. -/
def maxLimit : Int := 100

/-- The limit parsing of `getMessagesBetweenUsers` (message.service.js
lines 84–88): `let limit = parseInt(options.limit) ||
config.pagination.defaultLimit; if (limit > config.pagination.maxLimit)
limit = config.pagination.maxLimit;`.  `none` models a missing or
unparseable (`NaN`) limit; `parseInt` yielding `0` is falsy, so `0` also
falls back to the default.  There is no lower bound: any negative parsed
value is kept as is. -/
def effectiveLimit (limit : Option Int) : Int :=
  let l : Int :=
    match limit with
    | none => defaultLimit
    | some n => if n = 0 then defaultLimit else n
  if l > maxLimit then maxLimit else l

/-- The `$or` filter of the conversation query (message.service.js lines
93–98): the message belongs to the unordered pair `{u1, u2}`. -/
def matchesPair (u1 u2 : Nat) (m : Msg) : Bool :=
  (m.senderId == u1 && m.receiverId == u2) ||
  (m.senderId == u2 && m.receiverId == u1)

/-- The cursor condition (message.service.js lines 101–103): when
`before` is given, only messages with `createdAt` strictly below it
(`$lt`) are eligible. -/
def beforeLt (before : Option Nat) (m : Msg) : Bool :=
  match before with
  | some c => m.createdAt < c
  | none => true

/-- The value returned by `getMessagesBetweenUsers`: page (oldest first),
`hasMore`, and `nextCursor`. -/
structure FetchResult where
  messages : List Msg
  hasMore : Bool
  nextCursor : Option Nat
deriving DecidableEq, Repr

/-- The mongo query object of `getMessagesBetweenUsers` (lines 92–103)
applied to the store: messages of the unordered pair, restricted by the
cursor when given. -/
def pageQuery (store : List Msg) (u1 u2 : Nat) (before : Option Nat) :
    List Msg :=
  store.filter (fun m => matchesPair u1 u2 m && beforeLt before m)

/-- The fetched candidates (lines 105–109): the query result sorted by
`createdAt` descending, limited to `limit + 1` documents. -/
def pageFound (store : List Msg) (u1 u2 limit : Nat)
    (before : Option Nat) : List Msg :=
  (sortByCreatedDesc (pageQuery store u1 u2 before)).take (limit + 1)

/-- `const hasMore = messages.length > limit` (line 112). -/
def pageHasMore (store : List Msg) (u1 u2 limit : Nat)
    (before : Option Nat) : Bool :=
  limit < (pageFound store u1 u2 limit before).length

/-- The fetched array after `if (hasMore) messages.pop()` (lines
113–115). -/
def pageTrimmed (store : List Msg) (u1 u2 limit : Nat)
    (before : Option Nat) : List Msg :=
  if pageHasMore store u1 u2 limit before then
    (pageFound store u1 u2 limit before).dropLast
  else pageFound store u1 u2 limit before

/-- `nextCursor` (lines 117–121): the `createdAt` of the last — oldest —
element of the trimmed descending array when `hasMore` holds and the
array is non-empty, else `null`. -/
def pageNextCursor (store : List Msg) (u1 u2 limit : Nat)
    (before : Option Nat) : Option Nat :=
  if pageHasMore store u1 u2 limit before &&
      !(pageTrimmed store u1 u2 limit before).isEmpty then
    ((pageTrimmed store u1 u2 limit before).getLast?).map Msg.createdAt
  else none

/-- The query and page assembly of `getMessagesBetweenUsers`
(message.service.js lines 92–142), for a non-negative effective `limit`:
fetch up to `limit + 1` matching messages sorted by `createdAt`
descending; `hasMore` iff more than `limit` were fetched; if so `pop()`
the extra one; `nextCursor` as above; the page is returned `reverse()`d,
oldest first. -/
def fetchPage (store : List Msg) (u1 u2 : Nat) (limit : Nat)
    (before : Option Nat) : FetchResult :=
  ⟨(pageTrimmed store u1 u2 limit before).reverse,
   pageHasMore store u1 u2 limit before,
   pageNextCursor store u1 u2 limit before⟩

/-- The pages obtained by calling the conversation query repeatedly over
a fixed store, each call passing the previous page's `nextCursor` as
`before`, stopping when `nextCursor` is `null` (or after `fuel` calls). -/
def pageChain (store : List Msg) (u1 u2 : Nat) (limit : Nat) :
    Option Nat → Nat → List FetchResult
  | _, 0 => []
  | before, fuel + 1 =>
    let r := fetchPage store u1 u2 limit before
    match r.nextCursor with
    | some c => r :: pageChain store u1 u2 limit (some c) fuel
    | none => [r]

/-! ## Chat partner aggregation (`getChatPartners`, message.service.js
lines 152–246) -/

/-- The `$project` computing `partnerId` (lines 167–178): the participant
of the message who is not `userId`. -/
def counterpart (userId : Nat) (m : Msg) : Nat :=
  if m.senderId = userId then m.receiverId else m.senderId

/-- The `$group: { _id: "$partnerId", lastMessage: { $first: ... } }`
stage (lines 180–185) applied to the descending-sorted key/message
pairs: a single scan keeping, for each key, the first pair seen and
dropping every later pair with the same key.  `seen` is the set of keys
already retained. -/
def groupFirstAux (seen : List Nat) : List (Nat × Msg) → List (Nat × Msg)
  | [] => []
  | p :: rest =>
    if p.1 ∈ seen then groupFirstAux seen rest
    else p :: groupFirstAux (p.1 :: seen) rest

/-- The `$group` stage over the whole pair stream. -/
def groupFirst (l : List (Nat × Msg)) : List (Nat × Msg) :=
  groupFirstAux [] l

/-- One element of the `getChatPartners` result after the final
`$project` (lines 200–221): the partner id (`_id`), the partner's
profile fields taken from the joined user document (with the `$ifNull`
avatar fallback), and the retained most-recent message. -/
structure PartnerEntry where
  partnerId : Nat
  email : String
  fullName : String
  profilePic : String
  lastMessage : Msg
deriving DecidableEq, Repr

/-- Ordering of the final `$sort: { "lastMessage.createdAt": -1 }` stage
(lines 222–226). -/
def entryDesc (a b : PartnerEntry) : Prop :=
  b.lastMessage.createdAt ≤ a.lastMessage.createdAt

instance : DecidableRel entryDesc := fun a b => Nat.decLe _ _

instance : IsTotal PartnerEntry entryDesc :=
  ⟨fun a b => Nat.le_total b.lastMessage.createdAt a.lastMessage.createdAt⟩

instance : IsTrans PartnerEntry entryDesc :=
  ⟨fun _ _ _ h1 h2 => Nat.le_trans h2 h1⟩

/-- `MessageService.getChatPartners(userId)` as the aggregation pipeline
of message.service.js lines 155–226: `$match` messages involving the
user, `$sort` by `createdAt` descending, `$project` the counterpart id,
`$group` by it keeping the `$first` (most recent) message, `$lookup` the
partner's user document by `_id`, `$unwind` it (which drops a group
whose lookup matched no user), `$project` the output fields with the
`$ifNull` avatar fallback, and `$sort` by the retained message's
`createdAt` descending.  `joinPartner` is the `$lookup` (match a user
document by `_id` against the group key) followed by `$unwind` (a group
with no matching user yields `none` and is dropped by `filterMap`) and
the output `$project`. -/
def joinPartner (users : List UserRec) (p : Nat × Msg) : Option PartnerEntry :=
  (users.find? (fun us => us.id == p.1)).map (fun us =>
    { partnerId := p.1, email := us.email, fullName := us.fullName,
      profilePic := us.profilePic.getD "https://avatar.iran.liara.run/public",
      lastMessage := p.2 })

def getChatPartners (store : List Msg) (users : List UserRec)
    (userId : Nat) : List PartnerEntry :=
  let matched := store.filter (fun m => m.senderId == userId || m.receiverId == userId)
  let sorted := sortByCreatedDesc matched
  let pairs := sorted.map (fun m => (counterpart userId m, m))
  let grouped := groupFirst pairs
  let joined := grouped.filterMap (joinPartner users)
  joined.insertionSort entryDesc

/-! ## Send controller (`backend/src/controllers/message.controller.js`
lines 100–118) -/

/-- The observable realtime effect of one send request: either a
`newMessage` event was emitted to a socket id with the persisted message
as payload, or the emit threw and the error was caught and logged as a
warning, or no emit was attempted because the receiver had no registered
socket (or the service call itself threw first). -/
inductive PushOutcome where
  | delivered (socketId : Nat) (payload : Msg)
  | failedLogged
  | noPush
deriving DecidableEq, Repr

/-- The emit block of the send controller (lines 107–115):
`const receiverSocketId = getReceiverSocketId(receiverId); if
(receiverSocketId) io.to(receiverSocketId).emit("newMessage", message)`
inside `try/catch` — a throwing emit (modelled by `transportOk = false`)
is caught and logged with `logger.warn`, never rethrown. -/
def emitNewMessage (reg : Registry) (receiverId : Nat) (message : Msg)
    (transportOk : Bool) : PushOutcome :=
  match lookupUser reg receiverId with
  | some sid => if transportOk then .delivered sid message else .failedLogged
  | none => .noPush

/-- The send controller after the upload step (lines 100–118): call the
service; on a thrown service error `asyncHandler` forwards it before any
emit; on success run the emit block and respond `201` with the persisted
message regardless of the push outcome. -/
def sendMessageController (store : List Msg) (users : List UserRec)
    (reg : Registry) (senderId receiverId : Nat) (content : Content)
    (newId now : Nat) (transportOk : Bool) :
    Except Err (Msg × List Msg) × PushOutcome :=
  match sendMessage store users senderId receiverId content newId now with
  | .error e => (.error e, .noPush)
  | .ok (message, s) =>
    (.ok (message, s), emitNewMessage reg receiverId message transportOk)

/-! ## Helper lemmas for the presence registry -/

theorem regKeys_setKey_subset (reg : Registry) (u h : Nat) :
    ∀ k, k ∈ regKeys (setKey reg u h) → k ∈ regKeys reg ∨ k = u := by
  induction reg with
  | nil =>
    intro k hk
    simp [setKey, regKeys] at hk
    exact Or.inr hk
  | cons p rest ih =>
    intro k hk
    by_cases hp : p.1 = u
    · cases p with
      | mk k0 v0 =>
        simp only [setKey] at hk
        rw [if_pos hp] at hk
        simp only [regKeys, List.map_cons, List.mem_cons] at hk ⊢
        rcases hk with h1 | h2
        · exact Or.inl (Or.inl h1)
        · exact Or.inl (Or.inr h2)
    · cases p with
      | mk k0 v0 =>
        simp only [setKey] at hk
        rw [if_neg hp] at hk
        simp only [regKeys, List.map_cons, List.mem_cons] at hk ⊢
        rcases hk with h1 | h2
        · exact Or.inl (Or.inl h1)
        · rcases ih k h2 with h3 | h4
          · exact Or.inl (Or.inr h3)
          · exact Or.inr h4

theorem regKeys_setKey_nodup (reg : Registry) (u h : Nat)
    (hn : (regKeys reg).Nodup) : (regKeys (setKey reg u h)).Nodup := by
  induction reg with
  | nil => simp [setKey, regKeys]
  | cons p rest ih =>
    cases p with
    | mk k0 v0 =>
      simp only [regKeys, List.map_cons, List.nodup_cons] at hn
      by_cases hp : k0 = u
      · simp only [setKey, if_pos hp, regKeys, List.map_cons, List.nodup_cons]
        exact ⟨hn.1, hn.2⟩
      · simp only [setKey, if_neg hp, regKeys, List.map_cons, List.nodup_cons]
        refine ⟨?_, ih hn.2⟩
        intro hmem
        rcases regKeys_setKey_subset rest u h k0 hmem with h1 | h2
        · exact hn.1 h1
        · exact hp h2

theorem regKeys_delKey_sublist (reg : Registry) (u : Nat) :
    List.Sublist (regKeys (delKey reg u)) (regKeys reg) := by
  induction reg with
  | nil => simp [delKey, regKeys]
  | cons p rest ih =>
    cases p with
    | mk k0 v0 =>
      by_cases hp : k0 = u
      · simp only [delKey, if_pos hp, regKeys, List.map_cons]
        exact (List.sublist_cons_self _ _)
      · simp only [delKey, if_neg hp, regKeys, List.map_cons]
        exact ih.cons₂ k0

theorem regKeys_delKey_nodup (reg : Registry) (u : Nat)
    (hn : (regKeys reg).Nodup) : (regKeys (delKey reg u)).Nodup :=
  hn.sublist (regKeys_delKey_sublist reg u)

theorem runEvents_keys_nodup (evs : List SocketEvent) :
    (regKeys (runEvents evs)).Nodup := by
  suffices h : ∀ (reg : Registry), (regKeys reg).Nodup →
      (regKeys (evs.foldl applyEvent reg)).Nodup by
    exact h [] (by simp [regKeys])
  induction evs with
  | nil => intro reg hreg; simpa [List.foldl] using hreg
  | cons e rest ih =>
    intro reg hreg
    simp only [List.foldl_cons]
    apply ih
    cases e with
    | connect u sid => exact regKeys_setKey_nodup reg u sid hreg
    | disconnect u sid => exact regKeys_delKey_nodup reg u hreg

theorem lookupUser_setKey_self (reg : Registry) (u h : Nat) :
    lookupUser (setKey reg u h) u = some h := by
  induction reg with
  | nil =>
    simp only [setKey, lookupUser]
    rw [List.find?_cons_of_pos _ (by simp)]
    rfl
  | cons p rest ih =>
    cases p with
    | mk k0 v0 =>
      by_cases hp : k0 = u
      · simp only [setKey, if_pos hp, lookupUser]
        rw [List.find?_cons_of_pos _ (by simp [hp])]
        rfl
      · simp only [setKey, if_neg hp, lookupUser]
        rw [List.find?_cons_of_neg _ (by simp [hp])]
        exact ih

theorem lookupUser_delKey_self (reg : Registry) (u : Nat)
    (hn : (regKeys reg).Nodup) : lookupUser (delKey reg u) u = none := by
  induction reg with
  | nil => simp [delKey, lookupUser, List.find?]
  | cons p rest ih =>
    cases p with
    | mk k0 v0 =>
      simp only [regKeys, List.map_cons, List.nodup_cons] at hn
      by_cases hp : k0 = u
      · simp only [delKey, if_pos hp]
        subst hp
        simp only [lookupUser]
        cases hfind : rest.find? (fun p => p.1 == k0) with
        | none => simp
        | some q =>
          exfalso
          have hq : q ∈ rest := List.mem_of_find?_eq_some hfind
          have hq1 : q.1 = k0 := by
            have := List.find?_some hfind
            simpa using this
          exact hn.1 (hq1 ▸ List.mem_map_of_mem Prod.fst hq)
      · simp only [delKey, if_neg hp, lookupUser]
        rw [List.find?_cons_of_neg _ (by simp [hp])]
        exact ih hn.2

/-! ## Helper lemmas for the conversation query -/

theorem sorted_getLast?_le :
    ∀ (l : List Msg), l.Sorted msgDesc → ∀ y, l.getLast? = some y →
      ∀ x ∈ l, y.createdAt ≤ x.createdAt := by
  intro l
  induction l with
  | nil => intro _ y hy; simp at hy
  | cons a t ih =>
    intro hs y hy x hx
    cases t with
    | nil =>
      simp only [List.getLast?_singleton, Option.some.injEq] at hy
      simp only [List.mem_singleton] at hx
      subst hy
      subst hx
      exact Nat.le_refl _
    | cons c t2 =>
      rw [List.getLast?_cons_cons] at hy
      rcases List.mem_cons.mp hx with hxa | hxt
      · subst hxa
        have hmem : y ∈ c :: t2 := List.mem_of_mem_getLast? hy
        exact (List.sorted_cons.mp hs).1 y hmem
      · exact ih (List.sorted_cons.mp hs).2 y hy x hxt

theorem pageFound_sorted (store : List Msg) (u1 u2 limit : Nat)
    (before : Option Nat) :
    (pageFound store u1 u2 limit before).Sorted msgDesc :=
  (List.sorted_insertionSort msgDesc _).sublist (List.take_sublist _ _)

theorem pageTrimmed_sorted (store : List Msg) (u1 u2 limit : Nat)
    (before : Option Nat) :
    (pageTrimmed store u1 u2 limit before).Sorted msgDesc := by
  unfold pageTrimmed
  split_ifs
  · exact (pageFound_sorted store u1 u2 limit before).sublist
      (List.dropLast_sublist _)
  · exact pageFound_sorted store u1 u2 limit before

theorem mem_pageQuery {store : List Msg} {u1 u2 : Nat}
    {before : Option Nat} {m : Msg} :
    m ∈ pageQuery store u1 u2 before ↔
      m ∈ store ∧ matchesPair u1 u2 m = true ∧ beforeLt before m = true := by
  simp [pageQuery, List.mem_filter, Bool.and_eq_true, and_assoc]

theorem mem_of_mem_pageTrimmed {store : List Msg} {u1 u2 limit : Nat}
    {before : Option Nat} {m : Msg}
    (h : m ∈ pageTrimmed store u1 u2 limit before) :
    m ∈ pageQuery store u1 u2 before := by
  have h1 : m ∈ pageFound store u1 u2 limit before := by
    unfold pageTrimmed at h
    split_ifs at h
    · exact (List.dropLast_sublist _).subset h
    · exact h
  have h2 := (List.take_sublist _ _).subset h1
  simpa [sortByCreatedDesc] using h2

theorem pageFound_length (store : List Msg) (u1 u2 limit : Nat)
    (before : Option Nat) :
    (pageFound store u1 u2 limit before).length =
      min (limit + 1) (pageQuery store u1 u2 before).length := by
  simp [pageFound, sortByCreatedDesc, List.length_take]

theorem pageHasMore_iff (store : List Msg) (u1 u2 limit : Nat)
    (before : Option Nat) :
    pageHasMore store u1 u2 limit before = true ↔
      limit < (pageQuery store u1 u2 before).length := by
  unfold pageHasMore
  rw [decide_eq_true_eq, pageFound_length]
  omega

theorem pageTrimmed_length (store : List Msg) (u1 u2 limit : Nat)
    (before : Option Nat)
    (h : pageHasMore store u1 u2 limit before = true) :
    (pageTrimmed store u1 u2 limit before).length = limit := by
  have hq := (pageHasMore_iff store u1 u2 limit before).mp h
  unfold pageTrimmed
  rw [if_pos h, List.length_dropLast, pageFound_length]
  omega

theorem pageTrimmed_of_not_hasMore (store : List Msg) (u1 u2 limit : Nat)
    (before : Option Nat)
    (h : pageHasMore store u1 u2 limit before = false) :
    (pageTrimmed store u1 u2 limit before).length =
      (pageQuery store u1 u2 before).length := by
  have hq : ¬ limit < (pageQuery store u1 u2 before).length := by
    intro hc
    rw [(pageHasMore_iff store u1 u2 limit before).mpr hc] at h
    cases h
  unfold pageTrimmed
  rw [h]
  simp only [Bool.false_eq_true, if_false]
  rw [pageFound_length]
  omega

theorem pageNextCursor_none (store : List Msg) (u1 u2 limit : Nat)
    (before : Option Nat)
    (h : pageHasMore store u1 u2 limit before = false) :
    pageNextCursor store u1 u2 limit before = none := by
  unfold pageNextCursor
  rw [h]
  simp

theorem pageNextCursor_some {store : List Msg} {u1 u2 limit : Nat}
    {before : Option Nat} {t : Nat}
    (h : pageNextCursor store u1 u2 limit before = some t) :
    pageHasMore store u1 u2 limit before = true ∧
    ∃ y, (pageTrimmed store u1 u2 limit before).getLast? = some y ∧
      y.createdAt = t := by
  unfold pageNextCursor at h
  split_ifs at h with hcond
  · rw [Bool.and_eq_true] at hcond
    refine ⟨hcond.1, ?_⟩
    cases hy : (pageTrimmed store u1 u2 limit before).getLast? with
    | none => rw [hy] at h; simp at h
    | some y =>
      rw [hy] at h
      simp only [Option.map] at h
      exact ⟨y, rfl, Option.some.inj h⟩

theorem pageNextCursor_min {store : List Msg} {u1 u2 limit : Nat}
    {before : Option Nat} {t : Nat}
    (h : pageNextCursor store u1 u2 limit before = some t) :
    (∃ m ∈ pageTrimmed store u1 u2 limit before, m.createdAt = t) ∧
    ∀ m ∈ pageTrimmed store u1 u2 limit before, t ≤ m.createdAt := by
  obtain ⟨-, y, hy, hyt⟩ := pageNextCursor_some h
  refine ⟨⟨y, List.mem_of_mem_getLast? hy, hyt⟩, ?_⟩
  intro m hm
  have hle := sorted_getLast?_le _
    (pageTrimmed_sorted store u1 u2 limit before) y hy m hm
  omega

theorem pageTrimmed_ne_nil (store : List Msg) (u1 u2 limit : Nat)
    (before : Option Nat) (hL : 1 ≤ limit)
    (h : pageHasMore store u1 u2 limit before = true) :
    (pageTrimmed store u1 u2 limit before).isEmpty = false := by
  have hlen := pageTrimmed_length store u1 u2 limit before h
  cases hp : pageTrimmed store u1 u2 limit before with
  | nil => rw [hp] at hlen; simp at hlen; omega
  | cons x xs => simp [List.isEmpty]

theorem pageNextCursor_of_hasMore (store : List Msg) (u1 u2 limit : Nat)
    (before : Option Nat) (hL : 1 ≤ limit)
    (h : pageHasMore store u1 u2 limit before = true) :
    pageNextCursor store u1 u2 limit before =
      ((pageTrimmed store u1 u2 limit before).getLast?).map Msg.createdAt := by
  unfold pageNextCursor
  rw [h, pageTrimmed_ne_nil store u1 u2 limit before hL h]
  simp

/-! ## Claim C2 -/

/-- C2: for a limit `L` in the configured range `1..100`, the service
keeps `L` as the effective limit, fetches at most `L + 1` candidates
matching the unordered pair (strictly older than the cursor when given)
in descending `createdAt` order, reports `hasMore` iff more than `L`
messages match, returns the trimmed page in ascending (oldest-first)
order — of length `L` when `hasMore`, and the whole match set when not —
and returns `nextCursor` equal to the `createdAt` of the oldest message
of the returned page exactly when `hasMore` is true, `null` otherwise. -/
theorem claim_C2 (store : List Msg) (a b : Nat) (limit : Nat)
    (before : Option Nat) (h1 : 1 ≤ limit) (h2 : limit ≤ 100) :
    effectiveLimit (some (limit : Int)) = (limit : Int) ∧
    ((fetchPage store a b limit before).hasMore = true ↔
      limit < (pageQuery store a b before).length) ∧
    (fetchPage store a b limit before).messages.Sorted
      (fun x y => x.createdAt ≤ y.createdAt) ∧
    (∀ m ∈ (fetchPage store a b limit before).messages,
      m ∈ store ∧ matchesPair a b m = true ∧ beforeLt before m = true) ∧
    ((fetchPage store a b limit before).hasMore = true →
      (fetchPage store a b limit before).messages.length = limit) ∧
    ((fetchPage store a b limit before).hasMore = false →
      (fetchPage store a b limit before).messages.length =
        (pageQuery store a b before).length ∧
      (fetchPage store a b limit before).nextCursor = none) ∧
    (∀ t, (fetchPage store a b limit before).nextCursor = some t →
      (∃ m ∈ (fetchPage store a b limit before).messages, m.createdAt = t) ∧
      (∀ m ∈ (fetchPage store a b limit before).messages, t ≤ m.createdAt)) ∧
    ((fetchPage store a b limit before).hasMore = true →
      (fetchPage store a b limit before).nextCursor =
        ((fetchPage store a b limit before).messages.head?).map
          Msg.createdAt) := by
  have hlim : effectiveLimit (some (limit : Int)) = (limit : Int) := by
    have hz : ¬ ((limit : Int) = 0) := by omega
    have hm : ¬ ((limit : Int) > maxLimit) := by
      simp only [maxLimit]; omega
    simp only [effectiveLimit, if_neg hz, if_neg hm]
  refine ⟨hlim, pageHasMore_iff store a b limit before, ?_, ?_, ?_, ?_, ?_, ?_⟩
  · show ((pageTrimmed store a b limit before).reverse).Sorted
      (fun x y => x.createdAt ≤ y.createdAt)
    exact List.pairwise_reverse.mpr (pageTrimmed_sorted store a b limit before)
  · intro m hm
    have hm2 : m ∈ pageTrimmed store a b limit before :=
      List.mem_reverse.mp hm
    exact mem_pageQuery.mp (mem_of_mem_pageTrimmed hm2)
  · intro hh
    show ((pageTrimmed store a b limit before).reverse).length = limit
    rw [List.length_reverse]
    exact pageTrimmed_length store a b limit before hh
  · intro hh
    constructor
    · show ((pageTrimmed store a b limit before).reverse).length = _
      rw [List.length_reverse]
      exact pageTrimmed_of_not_hasMore store a b limit before hh
    · exact pageNextCursor_none store a b limit before hh
  · intro t ht
    obtain ⟨⟨m0, hm0, hm0t⟩, hall⟩ := pageNextCursor_min ht
    refine ⟨⟨m0, List.mem_reverse.mpr hm0, hm0t⟩, ?_⟩
    intro m hm
    exact hall m (List.mem_reverse.mp hm)
  · intro hh
    show pageNextCursor store a b limit before =
      (((pageTrimmed store a b limit before).reverse).head?).map Msg.createdAt
    rw [List.head?_reverse]
    exact pageNextCursor_of_hasMore store a b limit before h1 hh

/-- C2, witness at a concrete three-message conversation with limit 2. -/
theorem claim_C2_witness :
    (1 ≤ 2 ∧ 2 ≤ 100) ∧
    ((fetchPage [⟨1, 10, 20, "a", "", 100⟩, ⟨2, 20, 10, "b", "", 200⟩,
        ⟨3, 10, 20, "c", "", 300⟩] 10 20 2 none).hasMore = true ↔
      2 < (pageQuery [⟨1, 10, 20, "a", "", 100⟩, ⟨2, 20, 10, "b", "", 200⟩,
        ⟨3, 10, 20, "c", "", 300⟩] 10 20 none).length) :=
  ⟨⟨by decide, by decide⟩,
   (claim_C2 [⟨1, 10, 20, "a", "", 100⟩, ⟨2, 20, 10, "b", "", 200⟩,
      ⟨3, 10, 20, "c", "", 300⟩] 10 20 2 none (by decide) (by decide)).2.1⟩

/-! ## Helper lemmas for the cursor chain (C4) -/

theorem fetchPage_messages_subset_store {store : List Msg}
    {u1 u2 limit : Nat} {before : Option Nat} {m : Msg}
    (h : m ∈ (fetchPage store u1 u2 limit before).messages) : m ∈ store :=
  (mem_pageQuery.mp (mem_of_mem_pageTrimmed (List.mem_reverse.mp h))).1

theorem fetchPage_messages_before {store : List Msg}
    {u1 u2 limit : Nat} {c : Nat} {m : Msg}
    (h : m ∈ (fetchPage store u1 u2 limit (some c)).messages) :
    m.createdAt < c := by
  have hb := (mem_pageQuery.mp
    (mem_of_mem_pageTrimmed (List.mem_reverse.mp h))).2.2
  simpa [beforeLt] using hb

theorem fetchPage_cursor_min {store : List Msg} {u1 u2 limit : Nat}
    {before : Option Nat} {t : Nat}
    (h : (fetchPage store u1 u2 limit before).nextCursor = some t) :
    (∃ m ∈ (fetchPage store u1 u2 limit before).messages, m.createdAt = t) ∧
    ∀ m ∈ (fetchPage store u1 u2 limit before).messages, t ≤ m.createdAt := by
  obtain ⟨⟨m0, hm0, hm0t⟩, hall⟩ := pageNextCursor_min h
  exact ⟨⟨m0, List.mem_reverse.mpr hm0, hm0t⟩,
    fun m hm => hall m (List.mem_reverse.mp hm)⟩

theorem pageChain_mem_store (store : List Msg) (u1 u2 limit : Nat) :
    ∀ (fuel : Nat) (before : Option Nat) (r : FetchResult),
      r ∈ pageChain store u1 u2 limit before fuel →
      ∀ m ∈ r.messages, m ∈ store := by
  intro fuel
  induction fuel with
  | zero => intro before r hr; simp [pageChain] at hr
  | succ n ih =>
    intro before r hr
    simp only [pageChain] at hr
    split at hr
    · rcases List.mem_cons.mp hr with h1 | h2
      · subst h1
        intro m hm
        exact fetchPage_messages_subset_store hm
      · exact ih _ r h2
    · have h1 := List.mem_singleton.mp hr
      subst h1
      intro m hm
      exact fetchPage_messages_subset_store hm

theorem pageChain_bound (store : List Msg) (u1 u2 limit : Nat) :
    ∀ (fuel : Nat) (c : Nat) (r : FetchResult),
      r ∈ pageChain store u1 u2 limit (some c) fuel →
      ∀ m ∈ r.messages, m.createdAt < c := by
  intro fuel
  induction fuel with
  | zero => intro c r hr; simp [pageChain] at hr
  | succ n ih =>
    intro c r hr
    simp only [pageChain] at hr
    split at hr
    · rename_i c2 hnc
      rcases List.mem_cons.mp hr with h1 | h2
      · subst h1
        intro m hm
        exact fetchPage_messages_before hm
      · intro m hm
        have hc2 : c2 < c := by
          obtain ⟨⟨m0, hm0, hm0t⟩, -⟩ := fetchPage_cursor_min hnc
          have hlt := fetchPage_messages_before hm0
          omega
        have hlt2 := ih c2 r h2 m hm
        omega
    · have h1 := List.mem_singleton.mp hr
      subst h1
      intro m hm
      exact fetchPage_messages_before hm

/-! ## Claim C4 -/

/-- C4: over a fixed store with unique message ids, the pages obtained
by repeatedly passing the previous page's `nextCursor` as `before` are
pairwise disjoint — no message id appears in more than one returned
page — because each cursor is a strict upper bound on `createdAt` for
every later page while every message of the emitting page sits at or
above it. -/
theorem claim_C4 (store : List Msg) (u1 u2 limit : Nat)
    (before : Option Nat) (fuel : Nat)
    (hids : (store.map Msg.id).Nodup) :
    (pageChain store u1 u2 limit before fuel).Pairwise
      (fun p q => ∀ m1 ∈ p.messages, ∀ m2 ∈ q.messages, m1.id ≠ m2.id) := by
  induction fuel generalizing before with
  | zero => simp [pageChain]
  | succ n ih =>
    simp only [pageChain]
    split
    · rename_i c hnc
      refine List.pairwise_cons.mpr ⟨?_, ih (some c)⟩
      intro q hq m1 hm1 m2 hm2 hid
      have hm1s : m1 ∈ store := fetchPage_messages_subset_store hm1
      have hm2s : m2 ∈ store :=
        pageChain_mem_store store u1 u2 limit n (some c) q hq m2 hm2
      have heq : m1 = m2 :=
        List.inj_on_of_nodup_map hids hm1s hm2s hid
      have hge : c ≤ m1.createdAt := (fetchPage_cursor_min hnc).2 m1 hm1
      have hlt : m2.createdAt < c :=
        pageChain_bound store u1 u2 limit n c q hq m2 hm2
      rw [heq] at hge
      omega
    · simp

/-- C4, witness: a three-message conversation paged with limit 1. -/
theorem claim_C4_witness :
    (([⟨1, 10, 20, "a", "", 100⟩, ⟨2, 20, 10, "b", "", 200⟩,
       ⟨3, 10, 20, "c", "", 300⟩] : List Msg).map Msg.id).Nodup ∧
    (pageChain [⟨1, 10, 20, "a", "", 100⟩, ⟨2, 20, 10, "b", "", 200⟩,
       ⟨3, 10, 20, "c", "", 300⟩] 10 20 1 none 5).Pairwise
      (fun p q => ∀ m1 ∈ p.messages, ∀ m2 ∈ q.messages, m1.id ≠ m2.id) :=
  ⟨by decide,
   claim_C4 [⟨1, 10, 20, "a", "", 100⟩, ⟨2, 20, 10, "b", "", 200⟩,
     ⟨3, 10, 20, "c", "", 300⟩] 10 20 1 none 5 (by decide)⟩

/-! ## Claims about the presence registry -/

/-- C9: the presence registry holds at most one connection handle per
userId after every sequence of connect/disconnect events starting from
the empty map, and `register(U, h)` unconditionally overwrites any prior
entry for `U`, so a lookup of `U` immediately after returns `h`. -/
theorem claim_C9 :
    (∀ evs : List SocketEvent, (regKeys (runEvents evs)).Nodup) ∧
    (∀ (reg : Registry) (u h : Nat),
      lookupUser (handleConnection reg u h) u = some h) :=
  ⟨runEvents_keys_nodup, fun reg u h => lookupUser_setKey_self reg u h⟩

/-- C1, counterexample: register user 7 with handle 1, supersede it with
handle 2, then deliver the stale disconnect of handle 1.  The registry
entry for user 7 is gone — `lookup` returns `none`, not the newer
handle 2 as the claim asserts. -/
theorem claim_C1_cex :
    lookupUser (handleDisconnect
      (handleConnection (handleConnection [] 7 1) 7 2) 7 1) 7 ≠ some 2 ∧
    lookupUser (handleDisconnect
      (handleConnection (handleConnection [] 7 1) 7 2) 7 1) 7 = none := by
  decide

/-- C1, amended: the disconnect handler deletes the registry entry keyed
on the userId alone, never comparing the stored handle with the
disconnecting connection's handle.  So after `register(U, h1)` then
`register(U, h2)` (`h1 ≠ h2`), a stale disconnect carrying `h1` removes
the entry for `U` outright: `lookup(U)` returns `none`, not `h2`. -/
theorem claim_C1 (reg : Registry) (u h1 h2 : Nat) (hne : h1 ≠ h2)
    (hn : (regKeys reg).Nodup) :
    lookupUser (handleDisconnect
      (handleConnection (handleConnection reg u h1) u h2) u h1) u = none :=
  lookupUser_delKey_self _ u
    (regKeys_setKey_nodup _ u h2 (regKeys_setKey_nodup reg u h1 hn))

/-- C1, witness for the amended theorem at a concrete input. -/
theorem claim_C1_witness :
    (1 : Nat) ≠ 2 ∧ (regKeys ([] : Registry)).Nodup ∧
    lookupUser (handleDisconnect
      (handleConnection (handleConnection [] 9 1) 9 2) 9 1) 9 = none :=
  ⟨by decide, by decide, claim_C1 [] 9 1 2 (by decide) (by decide)⟩

/-! ## Claims about limit parsing (C3) -/

/-- C3, counterexample: a call with `limit = -5` does not behave as
`limit = 50`; the effective limit the service computes is `-5` itself —
`parseInt` yields the truthy value `-5`, and the only clamp in the code
is the upper bound against `maxLimit`. -/
theorem claim_C3_cex :
    effectiveLimit (some (-5)) = -5 ∧
    effectiveLimit (some (-5)) ≠ defaultLimit := by
  decide

/-- C3, amended: a missing or unparseable limit, and a parsed limit of
`0`, fall back to the default `50`; a parsed limit above `100` is
silently clamped to `100` (in particular `1000` behaves as `100`); a
parsed limit in `1..100` is used as is; but a negative parsed limit is
not clamped at all — `-5` stays `-5`. -/
theorem claim_C3 (n : Int) :
    effectiveLimit none = defaultLimit ∧
    effectiveLimit (some 0) = defaultLimit ∧
    (maxLimit < n → effectiveLimit (some n) = maxLimit) ∧
    (0 < n → n ≤ maxLimit → effectiveLimit (some n) = n) ∧
    (n < 0 → effectiveLimit (some n) = n) ∧
    effectiveLimit (some 1000) = maxLimit := by
  refine ⟨by decide, by decide, ?_, ?_, ?_, by decide⟩
  · intro h
    simp only [effectiveLimit, defaultLimit, maxLimit] at h ⊢
    split_ifs <;> omega
  · intro h1 h2
    simp only [effectiveLimit, defaultLimit, maxLimit] at h1 h2 ⊢
    split_ifs <;> omega
  · intro h
    simp only [effectiveLimit, defaultLimit, maxLimit] at h ⊢
    split_ifs <;> omega

/-- C3, witness for the amended theorem: each clamping branch exercised
at a concrete limit. -/
theorem claim_C3_witness :
    effectiveLimit (some 101) = maxLimit ∧
    effectiveLimit (some 7) = 7 ∧
    effectiveLimit (some (-3)) = -3 :=
  ⟨(claim_C3 101).2.2.1 (by decide),
   (claim_C3 7).2.2.2.1 (by decide) (by decide),
   (claim_C3 (-3)).2.2.2.2.1 (by decide)⟩

/-! ## Claims about sendMessage (C7, C6) and the send controller (C8) -/

/-- C7: a send whose content has neither text nor image fails with the
validation error (the service's `BadRequestError`) and persists nothing:
the conversation query over the post-call store returns exactly what it
returned before the failed call. -/
theorem claim_C7 (store : List Msg) (users : List UserRec)
    (x y newId now : Nat) (u1 u2 : Nat) (limit : Nat)
    (before : Option Nat) :
    sendMessage store users x y ⟨"", ""⟩ newId now = .error .badRequest ∧
    fetchPage (storeAfterSend store users x y ⟨"", ""⟩ newId now)
        u1 u2 limit before =
      fetchPage store u1 u2 limit before := by
  have hsend : sendMessage store users x y ⟨"", ""⟩ newId now =
      .error .badRequest := by
    simp [sendMessage]
  refine ⟨hsend, ?_⟩
  have hstore : storeAfterSend store users x y ⟨"", ""⟩ newId now = store := by
    simp [storeAfterSend, hsend]
  rw [hstore]

/-- C6, counterexample: a content whose text is a single space and whose
image is empty passes the service's pre-trim `!text && !image` check,
and the schema's `trim` then stores the text as the empty string: the
persisted message has empty trimmed text and empty image, violating the
claimed invariant that at least one of them is non-empty after
trimming. -/
theorem claim_C6_cex :
    sendMessage [] [⟨2, "b", "B", none⟩] 1 2 ⟨" ", ""⟩ 9 5 =
      .ok (⟨9, 1, 2, "", "", 5⟩, [⟨9, 1, 2, "", "", 5⟩]) ∧
    jsTrim (Msg.text ⟨9, 1, 2, "", "", 5⟩) = "" ∧
    Msg.image ⟨9, 1, 2, "", "", 5⟩ = "" := by
  decide

/-- C6, amended: every message persisted by `sendMessage` satisfies
`senderId ≠ receiverId`, and at least one of the provided text and image
was non-empty *before* trimming; the stored text is the trimmed provided
text (so a whitespace-only text yields a persisted message whose trimmed
text and image are both empty — the post-trim half of the invariant is
not enforced by this function). -/
theorem claim_C6 (store : List Msg) (users : List UserRec)
    (senderId receiverId newId now : Nat) (content : Content)
    (m : Msg) (s : List Msg)
    (h : sendMessage store users senderId receiverId content newId now =
      .ok (m, s)) :
    m.senderId ≠ m.receiverId ∧
    (content.text ≠ "" ∨ content.image ≠ "") ∧
    m.text = jsTrim content.text ∧
    m.image = content.image ∧
    s = store ++ [m] := by
  by_cases hc : content.text = "" ∧ content.image = ""
  · simp [sendMessage, hc] at h
  · simp only [sendMessage, if_neg hc] at h
    cases hfind : users.find? (fun u => u.id == receiverId) with
    | none => rw [hfind] at h; exact absurd h (by simp)
    | some us =>
      rw [hfind] at h
      by_cases hse : senderId = receiverId
      · rw [if_pos hse] at h; exact absurd h (by simp)
      · rw [if_neg hse] at h
        simp only [Except.ok.injEq, Prod.mk.injEq] at h
        obtain ⟨hm, hs⟩ := h
        subst hm
        refine ⟨by simpa using hse, ?_, rfl, rfl, by rw [← hs]⟩
        rcases not_and_or.mp hc with h1 | h1
        · exact Or.inl h1
        · exact Or.inr h1

/-- C6, witness for the amended theorem: a successful send at a concrete
input. -/
theorem claim_C6_witness :
    sendMessage [] [⟨2, "b", "B", none⟩] 1 2 ⟨"hi", ""⟩ 9 5 =
      .ok (⟨9, 1, 2, "hi", "", 5⟩, [⟨9, 1, 2, "hi", "", 5⟩]) ∧
    Msg.senderId ⟨9, 1, 2, "hi", "", 5⟩ ≠ Msg.receiverId ⟨9, 1, 2, "hi", "", 5⟩ :=
  ⟨by decide,
   (claim_C6 [] [⟨2, "b", "B", none⟩] 1 2 9 5 ⟨"hi", ""⟩
     ⟨9, 1, 2, "hi", "", 5⟩ [⟨9, 1, 2, "hi", "", 5⟩] (by decide)).1⟩

/-- C8: for every successful send — if the receiver has no registered
connection the controller pushes nothing and still answers with the
persisted message; if a connection is registered, a `newMessage` event
carrying the full persisted message goes to that socket; and a throwing
emit is caught (logged as a warning) without altering the successful
outcome.  In every one of these cases the first component of the
controller result is the persisted message. -/
theorem claim_C8 (store : List Msg) (users : List UserRec) (reg : Registry)
    (senderId receiverId newId now : Nat) (content : Content)
    (transportOk : Bool) (m : Msg) (s : List Msg)
    (h : sendMessage store users senderId receiverId content newId now =
      .ok (m, s)) :
    (lookupUser reg receiverId = none →
      sendMessageController store users reg senderId receiverId content
        newId now transportOk = (.ok (m, s), .noPush)) ∧
    (∀ sid, lookupUser reg receiverId = some sid → transportOk = true →
      sendMessageController store users reg senderId receiverId content
        newId now transportOk = (.ok (m, s), .delivered sid m)) ∧
    (∀ sid, lookupUser reg receiverId = some sid → transportOk = false →
      sendMessageController store users reg senderId receiverId content
        newId now transportOk = (.ok (m, s), .failedLogged)) ∧
    (sendMessageController store users reg senderId receiverId content
        newId now transportOk).1 = .ok (m, s) := by
  refine ⟨?_, ?_, ?_, ?_⟩
  · intro hl
    simp [sendMessageController, h, emitNewMessage, hl]
  · intro sid hl ht
    simp [sendMessageController, h, emitNewMessage, hl, ht]
  · intro sid hl ht
    simp [sendMessageController, h, emitNewMessage, hl, ht]
  · simp [sendMessageController, h]

/-- C8, witness: a registered receiver whose emit throws — the push is
logged as failed while the controller's answer is still the persisted
message. -/
theorem claim_C8_witness :
    sendMessage [] [⟨2, "b", "B", none⟩] 1 2 ⟨"hi", ""⟩ 9 5 =
      .ok (⟨9, 1, 2, "hi", "", 5⟩, [⟨9, 1, 2, "hi", "", 5⟩]) ∧
    lookupUser [(2, 33)] 2 = some 33 ∧
    sendMessageController [] [⟨2, "b", "B", none⟩] [(2, 33)] 1 2 ⟨"hi", ""⟩
        9 5 false =
      (.ok (⟨9, 1, 2, "hi", "", 5⟩, [⟨9, 1, 2, "hi", "", 5⟩]), .failedLogged) :=
  ⟨by decide, by decide,
   (claim_C8 [] [⟨2, "b", "B", none⟩] [(2, 33)] 1 2 9 5 ⟨"hi", ""⟩ false
     ⟨9, 1, 2, "hi", "", 5⟩ [⟨9, 1, 2, "hi", "", 5⟩] (by decide)).2.2.1
     33 (by decide) rfl⟩

/-! ## Helper lemmas for the partner aggregation (C5, C10) -/

theorem mem_of_mem_groupFirstAux :
    ∀ (l : List (Nat × Msg)) (seen : List Nat) (p : Nat × Msg),
      p ∈ groupFirstAux seen l → p ∈ l := by
  intro l
  induction l with
  | nil => intro seen p hp; simp [groupFirstAux] at hp
  | cons q rest ih =>
    intro seen p hp
    simp only [groupFirstAux] at hp
    split_ifs at hp with hq
    · exact List.mem_cons_of_mem q (ih seen p hp)
    · rcases List.mem_cons.mp hp with h1 | h2
      · subst h1; exact List.mem_cons_self _ _
      · exact List.mem_cons_of_mem q (ih _ p h2)

theorem groupFirstAux_keys_not_seen :
    ∀ (l : List (Nat × Msg)) (seen : List Nat) (p : Nat × Msg),
      p ∈ groupFirstAux seen l → p.1 ∉ seen := by
  intro l
  induction l with
  | nil => intro seen p hp; simp [groupFirstAux] at hp
  | cons q rest ih =>
    intro seen p hp
    simp only [groupFirstAux] at hp
    split_ifs at hp with hq
    · exact ih seen p hp
    · rcases List.mem_cons.mp hp with h1 | h2
      · subst h1; exact hq
      · intro hmem
        exact ih _ p h2 (List.mem_cons_of_mem _ hmem)

theorem groupFirstAux_keys_nodup :
    ∀ (l : List (Nat × Msg)) (seen : List Nat),
      ((groupFirstAux seen l).map Prod.fst).Nodup := by
  intro l
  induction l with
  | nil => intro seen; simp [groupFirstAux]
  | cons q rest ih =>
    intro seen
    simp only [groupFirstAux]
    split_ifs with hq
    · exact ih seen
    · simp only [List.map_cons, List.nodup_cons]
      refine ⟨?_, ih (q.1 :: seen)⟩
      intro hmem
      rcases List.mem_map.mp hmem with ⟨p, hp, hp1⟩
      exact groupFirstAux_keys_not_seen rest (q.1 :: seen) p hp
        (by rw [hp1]; exact List.mem_cons_self _ _)

theorem groupFirstAux_max :
    ∀ (l : List (Nat × Msg)) (seen : List Nat),
      l.Pairwise (fun a b => b.2.createdAt ≤ a.2.createdAt) →
      ∀ p ∈ groupFirstAux seen l, ∀ q ∈ l, q.1 = p.1 →
        q.2.createdAt ≤ p.2.createdAt := by
  intro l
  induction l with
  | nil => intro seen _ p hp; simp [groupFirstAux] at hp
  | cons r rest ih =>
    intro seen hpw p hp q hq hkey
    obtain ⟨hhead, htail⟩ := List.pairwise_cons.mp hpw
    simp only [groupFirstAux] at hp
    split_ifs at hp with hr
    · rcases List.mem_cons.mp hq with h1 | h2
      · exfalso
        have hns := groupFirstAux_keys_not_seen rest seen p hp
        subst h1
        exact hns (hkey ▸ hr)
      · exact ih seen htail p hp q h2 hkey
    · rcases List.mem_cons.mp hp with hp1 | hp2
      · subst hp1
        rcases List.mem_cons.mp hq with h1 | h2
        · subst h1; exact Nat.le_refl _
        · exact hhead q h2
      · have hns := groupFirstAux_keys_not_seen rest (r.1 :: seen) p hp2
        rcases List.mem_cons.mp hq with h1 | h2
        · exfalso
          subst h1
          exact hns (by rw [← hkey]; exact List.mem_cons_self _ _)
        · exact ih (r.1 :: seen) htail p hp2 q h2 hkey

theorem joinPartner_some {users : List UserRec} {p : Nat × Msg}
    {e : PartnerEntry} (h : joinPartner users p = some e) :
    e.partnerId = p.1 ∧ e.lastMessage = p.2 ∧ ∃ us ∈ users, us.id = p.1 := by
  unfold joinPartner at h
  cases hfind : users.find? (fun us => us.id == p.1) with
  | none => rw [hfind] at h; simp at h
  | some us =>
    rw [hfind] at h
    simp only [Option.map] at h
    have he := Option.some.inj h
    have hus : us ∈ users := List.mem_of_find?_eq_some hfind
    have husid := List.find?_some hfind
    subst he
    exact ⟨rfl, rfl, us, hus, by simpa using husid⟩

theorem joined_keys_sublist (users : List UserRec) :
    ∀ (l : List (Nat × Msg)),
      List.Sublist
        ((l.filterMap (joinPartner users)).map PartnerEntry.partnerId)
        (l.map Prod.fst) := by
  intro l
  induction l with
  | nil => simp
  | cons p rest ih =>
    simp only [List.filterMap_cons]
    cases hf : joinPartner users p with
    | none =>
      simp only [List.map_cons]
      exact ih.cons _
    | some e =>
      simp only [List.map_cons]
      rw [(joinPartner_some hf).1]
      exact ih.cons₂ p.1

/-- The pipeline of `getChatPartners` written out once, for rewriting. -/
theorem getChatPartners_eq (store : List Msg) (users : List UserRec)
    (u : Nat) :
    getChatPartners store users u =
      ((groupFirst ((sortByCreatedDesc
          (store.filter (fun m => m.senderId == u || m.receiverId == u))).map
          (fun m => (counterpart u m, m)))).filterMap
          (joinPartner users)).insertionSort entryDesc := rfl

theorem mem_getChatPartners {store : List Msg} {users : List UserRec}
    {u : Nat} {e : PartnerEntry} (he : e ∈ getChatPartners store users u) :
    ∃ p ∈ groupFirst ((sortByCreatedDesc
        (store.filter (fun m => m.senderId == u || m.receiverId == u))).map
        (fun m => (counterpart u m, m))),
      joinPartner users p = some e := by
  rw [getChatPartners_eq, List.mem_insertionSort] at he
  exact List.mem_filterMap.mp he

/-! ## Claim C5 -/

/-- C5: `getChatPartners` returns at most one entry per distinct
counterpart (`partnerId`s are pairwise distinct); each entry's
`lastMessage` is a message of the store between the user and that
counterpart, and no message of the store with that counterpart is newer
than it; and the entries are ordered non-increasing by
`lastMessage.createdAt`. -/
theorem claim_C5 (store : List Msg) (users : List UserRec) (u : Nat) :
    ((getChatPartners store users u).map PartnerEntry.partnerId).Nodup ∧
    (∀ e ∈ getChatPartners store users u,
      e.lastMessage ∈ store ∧
      (e.lastMessage.senderId = u ∨ e.lastMessage.receiverId = u) ∧
      counterpart u e.lastMessage = e.partnerId ∧
      ∀ m ∈ store, (m.senderId = u ∨ m.receiverId = u) →
        counterpart u m = e.partnerId →
        m.createdAt ≤ e.lastMessage.createdAt) ∧
    (getChatPartners store users u).Sorted entryDesc := by
  refine ⟨?_, ?_, ?_⟩
  · rw [getChatPartners_eq]
    have hperm := (List.perm_insertionSort entryDesc
      ((groupFirst ((sortByCreatedDesc
        (store.filter (fun m => m.senderId == u || m.receiverId == u))).map
        (fun m => (counterpart u m, m)))).filterMap
        (joinPartner users))).map PartnerEntry.partnerId
    rw [hperm.nodup_iff]
    exact ((groupFirstAux_keys_nodup _ []).sublist (joined_keys_sublist users _))
  · intro e he
    obtain ⟨p, hp, hjoin⟩ := mem_getChatPartners he
    obtain ⟨hpid, hplast, -⟩ := joinPartner_some hjoin
    have hppairs := mem_of_mem_groupFirstAux _ [] p hp
    obtain ⟨m0, hm0s, hm0p⟩ := List.mem_map.mp hppairs
    have hm0matched : m0 ∈ store.filter
        (fun m => m.senderId == u || m.receiverId == u) := by
      simpa [sortByCreatedDesc] using hm0s
    obtain ⟨hm0store, hm0pred⟩ := List.mem_filter.mp hm0matched
    have hp2 : p.2 = m0 := by rw [← hm0p]
    have hp1 : p.1 = counterpart u m0 := by rw [← hm0p]
    have hinv : m0.senderId = u ∨ m0.receiverId = u := by
      simpa using hm0pred
    refine ⟨?_, ?_, ?_, ?_⟩
    · rw [hplast, hp2]; exact hm0store
    · rw [hplast, hp2]; exact hinv
    · rw [hplast, hp2, hpid, hp1]
    · intro m hm hmin hmc
      have hmmatched : m ∈ store.filter
          (fun m => m.senderId == u || m.receiverId == u) :=
        List.mem_filter.mpr ⟨hm, by simpa using hmin⟩
      have hmsorted : m ∈ sortByCreatedDesc (store.filter
          (fun m => m.senderId == u || m.receiverId == u)) := by
        simpa [sortByCreatedDesc] using hmmatched
      have hmpairs : (counterpart u m, m) ∈ (sortByCreatedDesc
          (store.filter (fun m => m.senderId == u || m.receiverId == u))).map
          (fun m => (counterpart u m, m)) :=
        List.mem_map_of_mem _ hmsorted
      have hpw : ((sortByCreatedDesc
          (store.filter (fun m => m.senderId == u || m.receiverId == u))).map
          (fun m => (counterpart u m, m))).Pairwise
          (fun a b => b.2.createdAt ≤ a.2.createdAt) := by
        rw [List.pairwise_map]
        exact List.sorted_insertionSort msgDesc _
      have hmax := groupFirstAux_max _ [] hpw p hp (counterpart u m, m)
        hmpairs (by rw [hmc, hpid])
      rw [hplast]
      simpa using hmax
  · rw [getChatPartners_eq]
    exact List.sorted_insertionSort entryDesc _

/-- C5, witness: with two messages to the same partner, the returned
entry's retained message is at least as recent as the other one. -/
theorem claim_C5_witness :
    Msg.createdAt ⟨1, 10, 20, "a", "", 100⟩ ≤
      Msg.createdAt (PartnerEntry.lastMessage
        ⟨20, "u20", "U20", "pic", ⟨3, 10, 20, "c", "", 300⟩⟩) :=
  ((claim_C5 [⟨1, 10, 20, "a", "", 100⟩, ⟨3, 10, 20, "c", "", 300⟩]
      [⟨20, "u20", "U20", some "pic"⟩] 10).2.1
    ⟨20, "u20", "U20", "pic", ⟨3, 10, 20, "c", "", 300⟩⟩ (by decide)).2.2.2
    ⟨1, 10, 20, "a", "", 100⟩ (by decide) (by decide) (by decide)

/-! ## Claim C10 -/

/-- C10: a counterpart id that resolves to no user document yields no
entry at all — every returned entry's `partnerId` resolves to an
existing user, so the unresolvable counterpart is silently omitted
rather than returned with missing profile fields or raising an error. -/
theorem claim_C10 (store : List Msg) (users : List UserRec) (u p : Nat)
    (hp : ∀ us ∈ users, us.id ≠ p) :
    (∀ e ∈ getChatPartners store users u, e.partnerId ≠ p) ∧
    (∀ e ∈ getChatPartners store users u,
      ∃ us ∈ users, us.id = e.partnerId) := by
  have hres : ∀ e ∈ getChatPartners store users u,
      ∃ us ∈ users, us.id = e.partnerId := by
    intro e he
    obtain ⟨q, hq, hjoin⟩ := mem_getChatPartners he
    obtain ⟨hpid, -, us, hus, husid⟩ := joinPartner_some hjoin
    exact ⟨us, hus, by rw [husid, hpid]⟩
  refine ⟨?_, hres⟩
  intro e he heq
  obtain ⟨us, hus, husid⟩ := hres e he
  exact hp us hus (by rw [husid, heq])

/-- C10, witness: user 10 messaged both 20 (a known user) and 30 (no
user document); the entry returned for partner 20 is not for 30, and the
partner-30 conversation produced no entry with id 30. -/
theorem claim_C10_witness :
    PartnerEntry.partnerId
      ⟨20, "u20", "U20", "pic", ⟨3, 10, 20, "c", "", 300⟩⟩ ≠ 30 :=
  (claim_C10 [⟨3, 10, 20, "c", "", 300⟩, ⟨4, 10, 30, "d", "", 400⟩]
    [⟨20, "u20", "U20", some "pic"⟩] 10 30 (by decide)).1
    ⟨20, "u20", "U20", "pic", ⟨3, 10, 20, "c", "", 300⟩⟩ (by decide)

end Chat4U
